import Mathlib

/-!
# Verification of the sudoai-mvp upload orchestrator and job poller

Shallow embedding of the upload / job-tracking client code of this
repository:

* the dual-mode `APIClient` (multipart part slicing, the batch upload loop of
  `uploadWithS3Multipart`, `abortMultipartUpload`, `getUploadInfo`),
* `pollJob` and the merge branch of `onGetStarted` from
  `frontend/components/FeaturePage.tsx`,
* the thin job wrappers of `frontend/app/lib/api.ts`.

JavaScript numbers are exact for every magnitude appearing in this code, so
sizes, counts and times are modelled as `ℕ`.  Fallible operations are
modelled with `Except`.
-/

namespace SudoAI

/-! ## Part planning and slicing (`uploadWithS3Multipart.uploadPart`)

The backend `/uploads/s3/initiate` endpoint is not among the repository
sources; per the spec it returns descriptors `presigned_urls : [{part_number,
url, size}]`.  The client-side computation of each byte range is embedded
from `uploadPart`. -/

/-- Descriptor of one presigned part, `{part_number, size}`, as listed in
`MultipartUploadInfo.presigned_urls`. -/
structure PartDesc where
  part_number : ℕ
  size : ℕ
deriving DecidableEq, Repr

/-- Modelled from the spec: the number of parts the initiate call produces for
a file of `fileSize` bytes at chunk size `chunkSize`, namely
`⌈fileSize / chunkSize⌉` (the backend initiate endpoint is not in the
repository sources). -/
def numParts (fileSize chunkSize : ℕ) : ℕ :=
  (fileSize + chunkSize - 1) / chunkSize

/-- Modelled from the spec: the ordered presigned part descriptors produced by
the initiate call for chunk size `chunkSize` — parts numbered `1..numParts`,
each of `chunkSize` bytes except a final shorter remainder. -/
def presignedParts (fileSize chunkSize : ℕ) : List PartDesc :=
  (List.range (numParts fileSize chunkSize)).map
    (fun i => ⟨i + 1, min chunkSize (fileSize - i * chunkSize)⟩)

/-- Source `uploadPart`: `const start = (part_number - 1) * chunkSize`. -/
def sliceStart (chunkSize : ℕ) (p : PartDesc) : ℕ :=
  (p.part_number - 1) * chunkSize

/-- Source `uploadPart`: `const end = Math.min(start + size, file.size)`. -/
def sliceEnd (fileSize chunkSize : ℕ) (p : PartDesc) : ℕ :=
  min (sliceStart chunkSize p + p.size) fileSize

/-- Byte `b` lies in the half-open range `[start, end)` which
`file.slice(start, end)` extracts for part `p`. -/
def coversByte (fileSize chunkSize b : ℕ) (p : PartDesc) : Bool :=
  decide (sliceStart chunkSize p ≤ b) && decide (b < sliceEnd fileSize chunkSize p)

theorem numParts_mul_ge (fileSize chunkSize : ℕ) (hc : 0 < chunkSize) :
    fileSize ≤ numParts fileSize chunkSize * chunkSize := by
  have hd := Nat.div_add_mod (fileSize + chunkSize - 1) chunkSize
  have hm : (fileSize + chunkSize - 1) % chunkSize < chunkSize :=
    Nat.mod_lt _ hc
  have hcm : chunkSize * ((fileSize + chunkSize - 1) / chunkSize)
      = ((fileSize + chunkSize - 1) / chunkSize) * chunkSize := Nat.mul_comm _ _
  unfold numParts
  omega

theorem mul_lt_of_lt_numParts (fileSize chunkSize i : ℕ) (hc : 0 < chunkSize)
    (hi : i < numParts fileSize chunkSize) : i * chunkSize < fileSize := by
  by_contra h
  push_neg at h
  have hcm : chunkSize * i = i * chunkSize := Nat.mul_comm _ _
  have h2 : fileSize + chunkSize - 1 ≤ chunkSize - 1 + chunkSize * i := by omega
  have h3 : (fileSize + chunkSize - 1) / chunkSize
      ≤ (chunkSize - 1 + chunkSize * i) / chunkSize := Nat.div_le_div_right h2
  have h4 : (chunkSize - 1 + chunkSize * i) / chunkSize = i := by
    rw [Nat.add_mul_div_left _ _ hc, Nat.div_eq_of_lt (by omega)]
    omega
  unfold numParts at hi
  omega

theorem one_le_numParts (fileSize chunkSize : ℕ) (hc : 0 < chunkSize)
    (hf : 0 < fileSize) : 1 ≤ numParts fileSize chunkSize := by
  unfold numParts
  have h1 : 1 * chunkSize ≤ fileSize + chunkSize - 1 := by omega
  exact (Nat.le_div_iff_mul_le hc).mpr h1

/-- A predicate on `ℕ` holding at exactly one index below `n` is counted once
over `List.range n`. -/
theorem countP_range_unique (p : ℕ → Bool) (n i₀ : ℕ) (h₀ : i₀ < n)
    (hp : p i₀ = true) (huniq : ∀ i, i < n → p i = true → i = i₀) :
    (List.range n).countP p = 1 := by
  induction n with
  | zero => omega
  | succ m ih =>
    rw [List.range_succ, List.countP_append]
    by_cases hio : i₀ = m
    · subst hio
      have hz : (List.range i₀).countP p = 0 := by
        refine List.countP_eq_zero.mpr ?_
        intro a ha hpa
        have halt := List.mem_range.mp ha
        have := huniq a (by omega) hpa
        omega
      simp [hz, hp]
    · have h₀m : i₀ < m := by omega
      have hrec := ih h₀m (fun i hi hpi => huniq i (by omega) hpi)
      have hpm : ¬ p m = true := by
        intro hb
        exact hio (huniq m (by omega) hb).symm
      simp [hrec, hpm]

/-- Characterisation of range membership: the slice computed for the part at
0-based position `i` contains byte `b < fileSize` exactly when `i` is the
chunk index `b / chunkSize`. -/
theorem coversByte_iff (fileSize chunkSize : ℕ) (hc : 0 < chunkSize)
    (b : ℕ) (hb : b < fileSize) (i : ℕ) (hi : i < numParts fileSize chunkSize) :
    coversByte fileSize chunkSize b
      ⟨i + 1, min chunkSize (fileSize - i * chunkSize)⟩ = true ↔
    i = b / chunkSize := by
  have hicF : i * chunkSize < fileSize := mul_lt_of_lt_numParts _ _ i hc hi
  have hexp : (i + 1) * chunkSize = i * chunkSize + chunkSize := by ring
  have hend : sliceEnd fileSize chunkSize
      ⟨i + 1, min chunkSize (fileSize - i * chunkSize)⟩
      = min ((i + 1) * chunkSize) fileSize := by
    simp only [sliceEnd, sliceStart, Nat.add_sub_cancel]
    omega
  have hstart : sliceStart chunkSize
      ⟨i + 1, min chunkSize (fileSize - i * chunkSize)⟩ = i * chunkSize := by
    simp [sliceStart]
  constructor
  · intro hcov
    simp only [coversByte, Bool.and_eq_true, decide_eq_true_eq, hend, hstart] at hcov
    obtain ⟨hle, hlt⟩ := hcov
    have hlt2 : b < (i + 1) * chunkSize := lt_of_lt_of_le hlt (min_le_left _ _)
    exact (Nat.div_eq_of_lt_le hle hlt2).symm
  · intro hdiv
    subst hdiv
    simp only [coversByte, Bool.and_eq_true, decide_eq_true_eq, hend, hstart]
    refine ⟨Nat.div_mul_le_self b chunkSize, lt_min ?_ hb⟩
    have h1 := Nat.div_add_mod b chunkSize
    have h2 := Nat.mod_lt b hc
    have h3 : (b / chunkSize + 1) * chunkSize
        = chunkSize * (b / chunkSize) + chunkSize := by ring
    omega

/-- Claim C1.  For every file size and chunk size, the byte ranges the
uploader slices for the presigned parts (slice start `(part_number − 1) ×
chunkSize`, slice end `min (start + size) fileSize`, from `uploadPart`)
partition `[0, fileSize)` exactly once — every byte of the file is covered by
exactly one part range; the part numbered `numParts` (the last part) has size
`fileSize − (numParts − 1) × chunkSize`; and the example `chunkSize = 5MB`,
`fileSize = 12MB` yields parts of sizes 5MB, 5MB, 2MB. -/
theorem s3_part_ranges_partition (fileSize chunkSize : ℕ)
    (hc : 0 < chunkSize) (hf : 0 < fileSize) :
    (∀ b, b < fileSize →
      (presignedParts fileSize chunkSize).countP
        (coversByte fileSize chunkSize b) = 1)
    ∧ (∀ p ∈ presignedParts fileSize chunkSize,
        p.part_number = numParts fileSize chunkSize →
        p.size = fileSize - (numParts fileSize chunkSize - 1) * chunkSize)
    ∧ (presignedParts (12 * 1024 * 1024) (5 * 1024 * 1024)).map PartDesc.size
        = [5 * 1024 * 1024, 5 * 1024 * 1024, 2 * 1024 * 1024] := by
  refine ⟨?_, ?_, by decide⟩
  · intro b hb
    rw [presignedParts, List.countP_map]
    refine countP_range_unique _ _ (b / chunkSize) ?_ ?_ ?_
    · exact (Nat.div_lt_iff_lt_mul hc).mpr
        (lt_of_lt_of_le hb (numParts_mul_ge fileSize chunkSize hc))
    · exact (coversByte_iff fileSize chunkSize hc b hb (b / chunkSize)
        ((Nat.div_lt_iff_lt_mul hc).mpr
          (lt_of_lt_of_le hb (numParts_mul_ge fileSize chunkSize hc)))).mpr rfl
    · intro i hi hpi
      exact (coversByte_iff fileSize chunkSize hc b hb i hi).mp hpi
  · intro p hp hnum
    rw [presignedParts, List.mem_map] at hp
    obtain ⟨i, hmem, hpi⟩ := hp
    have hin : i < numParts fileSize chunkSize := List.mem_range.mp hmem
    have hi : i = numParts fileSize chunkSize - 1 := by
      have : p.part_number = i + 1 := by rw [← hpi]
      omega
    subst hi
    have hsz : p.size
        = min chunkSize (fileSize - (numParts fileSize chunkSize - 1) * chunkSize) := by
      rw [← hpi]
    rw [hsz]
    have hone := one_le_numParts fileSize chunkSize hc hf
    have hle := numParts_mul_ge fileSize chunkSize hc
    have hsub : (numParts fileSize chunkSize - 1) * chunkSize
        = numParts fileSize chunkSize * chunkSize - chunkSize := Nat.sub_one_mul _ _
    have hcle : chunkSize ≤ numParts fileSize chunkSize * chunkSize :=
      le_mul_of_one_le_left (Nat.zero_le _) hone
    omega

/-- Witness for C1: in the 12MB / 5MB example, byte 11MB is covered by exactly
one part range. -/
theorem s3_part_ranges_partition_witness :
    (presignedParts (12 * 1024 * 1024) (5 * 1024 * 1024)).countP
      (coversByte (12 * 1024 * 1024) (5 * 1024 * 1024) (11 * 1024 * 1024)) = 1 :=
  (s3_part_ranges_partition (12 * 1024 * 1024) (5 * 1024 * 1024)
    (by norm_num) (by norm_num)).1 (11 * 1024 * 1024) (by norm_num)

/-! ## Network-call trace of `uploadWithS3Multipart`

`uploadWithS3Multipart` initiates, then runs the part PUTs in consecutive
batches of `maxConcurrent` (`for (let i = 0; i < presigned_urls.length;
i += maxConcurrent)` with `await Promise.all(batchPromises)` inside the
loop), then calls `completeMultipartUpload`.  Each part is `fetch`ed exactly
once — `uploadPart` contains no retry loop — and the `catch` block only logs
and rethrows, issuing no further network call. -/

/-- Network calls the API client can issue during an upload. -/
inductive ApiCall where
  | initiate
  | putPart (part_number : ℕ)
  | complete
  | abort
  | discover
deriving DecidableEq, Repr

/-- Outcome of the single PUT `fetch` for one part: a 2xx response carrying an
ETag header, a response with `response.ok` false (any non-2xx status, 5xx and
429 included), a 2xx response without an ETag header, or a network failure
(rejected `fetch`). -/
inductive PartOutcome where
  | ok (etag : String)
  | httpError (status : ℕ)
  | noEtag
  | netFail
deriving DecidableEq, Repr

/-- Whether `uploadPart` resolves for this outcome (it throws on a non-ok
response and on a missing ETag). -/
def PartOutcome.isOk : PartOutcome → Bool
  | .ok _ => true
  | _ => false

/-- Environment of one `uploadWithS3Multipart` run: the initiate response
fields that drive control flow, the outcome of each part PUT, and whether the
completion call succeeds. -/
structure S3Env where
  numParts : ℕ
  maxConcurrent : ℕ
  outcome : ℕ → PartOutcome
  completeOk : Bool

/-- Consecutive chunks of at most `m` elements, with explicit fuel (each step
consumes at least one element whenever `0 < m`). -/
def chunksOfAux (m : ℕ) : ℕ → List ℕ → List (List ℕ)
  | 0, _ => []
  | _ + 1, [] => []
  | fuel + 1, x :: xs => (x :: xs).take m :: chunksOfAux m fuel ((x :: xs).drop m)

/-- Source batch slicing: `presigned_urls.slice(i, i + maxConcurrent)` for
`i = 0, m, 2m, ...` over the ordered part numbers `1..n`. -/
def partBatches (n m : ℕ) : List (List ℕ) :=
  chunksOfAux m n ((List.range n).map (· + 1))

/-- Runs the batch loop: every part of the current batch is fetched (its PUT
call recorded); if all resolve, the next batch runs, otherwise
`await Promise.all(batchPromises)` rejects and the loop is abandoned.
Returns the PUT calls issued and whether all parts succeeded. -/
def runBatches (outcome : ℕ → PartOutcome) : List (List ℕ) → List ApiCall × Bool
  | [] => ([], true)
  | b :: rest =>
    let calls := b.map ApiCall.putPart
    if b.all (fun p => (outcome p).isOk) then
      let r := runBatches outcome rest
      (calls ++ r.1, r.2)
    else
      (calls, false)

/-- Trace-level embedding of `uploadWithS3Multipart`: the network calls issued
and the overall result.  After a part failure the error propagates through the
`catch` block (which only logs and rethrows); after all parts succeed,
`completeMultipartUpload` is called and its failure likewise propagates.  No
code path issues an abort call. -/
def uploadWithS3Multipart (env : S3Env) : List ApiCall × Except String String :=
  let r := runBatches env.outcome (partBatches env.numParts env.maxConcurrent)
  if r.2 then
    if env.completeOk then
      (ApiCall.initiate :: r.1 ++ [ApiCall.complete], Except.ok "s3://bucket/key")
    else
      (ApiCall.initiate :: r.1 ++ [ApiCall.complete], Except.error "complete failed")
  else
    (ApiCall.initiate :: r.1, Except.error "part upload failed")

/-- Retry-delay schedule passed to `tus-js-client` by `uploadWithTUS`
(source: `retryDelays: [0, 3000, 5000, 10000, 20000]`); the retry logic
itself lives in the library, not in this repository. -/
def tusRetryDelays : List ℕ := [0, 3000, 5000, 10000, 20000]

/-- Embedding of `abortMultipartUpload`: the method body is a single
`this.request` POST to the abort URL; the client object holds no
deduplication or idempotence state. -/
def abortMultipartUpload : List ApiCall := [ApiCall.abort]

/-- Network calls resulting from `times` successive abort requests. -/
def requestAbort (times : ℕ) : List ApiCall :=
  (List.replicate times abortMultipartUpload).flatten

/-- Embedding of `getUploadInfo`: the method body is a single
`this.request` of the `/uploads/tus` endpoint; the client caches nothing. -/
def getUploadInfo : List ApiCall := [ApiCall.discover]

/-- Network calls resulting from `times` successive capability-discovery
calls. -/
def callGetUploadInfo (times : ℕ) : List ApiCall :=
  (List.replicate times getUploadInfo).flatten

/-- Cache directive of the `getTusEndpoint` fetch in `app/lib/api.ts`
(source: `fetch(..., { cache: "no-store" })`). -/
def getTusEndpointCacheMode : String := "no-store"

/-! ### Trace lemmas -/

theorem runBatches_count_abort (outcome : ℕ → PartOutcome) (bs : List (List ℕ)) :
    (runBatches outcome bs).1.count ApiCall.abort = 0 := by
  induction bs with
  | nil => simp [runBatches]
  | cons b rest ih =>
    simp only [runBatches]
    have hb : (b.map ApiCall.putPart).count ApiCall.abort = 0 := by
      refine List.count_eq_zero.mpr ?_
      intro hmem
      obtain ⟨p, _, hp⟩ := List.mem_map.mp hmem
      exact ApiCall.noConfusion hp
    by_cases hall : b.all (fun p => (outcome p).isOk)
    · simp [hall, List.count_append, hb, ih]
    · simp [hall, hb]

theorem joined_chunksOfAux (m : ℕ) (hm : 0 < m) :
    ∀ fuel (l : List ℕ), l.length ≤ fuel → (chunksOfAux m fuel l).flatten = l := by
  intro fuel
  induction fuel with
  | zero =>
    intro l hl
    have : l = [] := List.length_eq_zero.mp (by omega)
    subst this
    rfl
  | succ f ih =>
    intro l hl
    cases l with
    | nil => rfl
    | cons x xs =>
      simp only [chunksOfAux, List.flatten_cons]
      rw [ih _ (by simp only [List.length_drop]; simp at hl ⊢; omega),
        List.take_append_drop]

theorem runBatches_count_le (outcome : ℕ → PartOutcome) (bs : List (List ℕ))
    (c : ApiCall) :
    (runBatches outcome bs).1.count c ≤ (bs.flatten.map ApiCall.putPart).count c := by
  induction bs with
  | nil => simp [runBatches]
  | cons b rest ih =>
    simp only [runBatches, List.flatten_cons, List.map_append, List.count_append]
    by_cases hall : b.all (fun p => (outcome p).isOk)
    · simp only [hall, if_true, List.count_append]
      exact Nat.add_le_add_left ih _
    · simp only [hall, if_false, Bool.false_eq_true]
      exact Nat.le_add_right _ _

theorem count_putPart_partBatches_le_one (n m p : ℕ) (hm : 0 < m) :
    ((partBatches n m).flatten.map ApiCall.putPart).count (ApiCall.putPart p) ≤ 1 := by
  rw [partBatches, joined_chunksOfAux m hm n _ (by simp)]
  have hnodup : (((List.range n).map (· + 1)).map ApiCall.putPart).Nodup := by
    refine List.Nodup.map ?_ (List.Nodup.map ?_ (List.nodup_range n))
    · intro a b hab
      simpa using hab
    · intro a b hab
      simpa using hab
  exact List.nodup_iff_count_le_one.mp hnodup _

/-! ## Timing model of the batch upload loop

Abstract timing semantics of the same loop, used to settle the concurrency
claim: part `i` (0-based position in `presigned_urls`) takes `dur i` time
units; the loop launches parts in consecutive batches of `maxConcurrent`,
and `await Promise.all(batchPromises)` makes batch `k + 1` start exactly when
the slowest part of batch `k` finishes. -/

/-- Positions belonging to batch `k` (`presigned_urls.slice(k*m, (k+1)*m)`). -/
def batchMembers (n m k : ℕ) : List ℕ :=
  (List.range n).filter (fun i => i / m == k)

/-- Time taken by batch `k`: `Promise.all` resolves when the slowest of its
parts finishes. -/
def batchDur (dur : ℕ → ℕ) (n m k : ℕ) : ℕ :=
  (batchMembers n m k).foldr (fun i a => max (dur i) a) 0

/-- Start instant of batch `k`: batch 0 starts at 0 and each later batch
starts when the previous one completes (`await` inside the loop). -/
def batchStart (dur : ℕ → ℕ) (n m : ℕ) : ℕ → ℕ
  | 0 => 0
  | k + 1 => batchStart dur n m k + batchDur dur n m k

/-- Instant at which the PUT of part `i` is issued: when its batch starts. -/
def startTime (dur : ℕ → ℕ) (n m i : ℕ) : ℕ :=
  batchStart dur n m (i / m)

/-- Instant at which the PUT of part `i` resolves. -/
def finishTime (dur : ℕ → ℕ) (n m i : ℕ) : ℕ :=
  startTime dur n m i + dur i

/-- Parts whose PUT is outstanding (issued, not yet resolved) at instant `t`. -/
def outstanding (dur : ℕ → ℕ) (n m t : ℕ) : Finset ℕ :=
  (Finset.range n).filter
    (fun i => startTime dur n m i ≤ t ∧ t < finishTime dur n m i)

theorem le_foldr_max (f : ℕ → ℕ) (l : List ℕ) (x : ℕ) (h : x ∈ l) :
    f x ≤ l.foldr (fun i a => max (f i) a) 0 := by
  induction l with
  | nil => cases h
  | cons y ys ih =>
    rcases List.mem_cons.mp h with rfl | h2
    · exact le_max_left _ _
    · exact le_trans (ih h2) (le_max_right _ _)

theorem dur_le_batchDur (dur : ℕ → ℕ) (n m i : ℕ) (hi : i < n) :
    dur i ≤ batchDur dur n m (i / m) := by
  refine le_foldr_max dur _ i ?_
  simp [batchMembers, List.mem_filter, List.mem_range, hi]

theorem batchStart_mono (dur : ℕ → ℕ) (n m : ℕ) :
    ∀ a b, a ≤ b → batchStart dur n m a ≤ batchStart dur n m b := by
  intro a b hab
  induction b with
  | zero =>
    have : a = 0 := by omega
    subst this
    exact le_refl _
  | succ bb ih =>
    rcases Nat.lt_succ_iff_lt_or_eq.mp (Nat.lt_succ_of_le hab) with hlt | heq
    · calc batchStart dur n m a ≤ batchStart dur n m bb := ih (by omega)
        _ ≤ batchStart dur n m (bb + 1) := Nat.le_add_right _ _
    · subst heq
      exact le_refl _

theorem outstanding_window (dur : ℕ → ℕ) (n m t i : ℕ)
    (h : i ∈ outstanding dur n m t) :
    i < n ∧ batchStart dur n m (i / m) ≤ t
      ∧ t < batchStart dur n m (i / m + 1) := by
  rw [outstanding, Finset.mem_filter, Finset.mem_range] at h
  obtain ⟨hin, hle, hlt⟩ := h
  refine ⟨hin, hle, ?_⟩
  have h2 : finishTime dur n m i ≤ batchStart dur n m (i / m + 1) := by
    have := dur_le_batchDur dur n m i hin
    simp only [finishTime, startTime, batchStart]
    omega
  omega

theorem outstanding_same_batch (dur : ℕ → ℕ) (n m t i j : ℕ)
    (hi : i ∈ outstanding dur n m t) (hj : j ∈ outstanding dur n m t) :
    i / m = j / m := by
  obtain ⟨_, hile, hilt⟩ := outstanding_window dur n m t i hi
  obtain ⟨_, hjle, hjlt⟩ := outstanding_window dur n m t j hj
  rcases Nat.lt_trichotomy (i / m) (j / m) with hlt | heq | hgt
  · have := batchStart_mono dur n m (i / m + 1) (j / m) hlt
    omega
  · exact heq
  · have := batchStart_mono dur n m (j / m + 1) (i / m) hgt
    omega

/-! ## The polling loop `pollJob` (FeaturePage.tsx)

Source:
`while (true) { const s = await getJob(task_id); onUpdate(s);
if (s.state === "SUCCESS" || s.state === "FAILURE") break;
await new Promise((r) => setTimeout(r, 1200)); }` -/

/-- Snapshot returned by `getJob`: `{ state, result?, error? }`. -/
structure JobSnapshot where
  state : String
  result : Option String
  error : Option String
deriving DecidableEq, Repr

/-- Loop exit test of `pollJob`:
`s.state === "SUCCESS" || s.state === "FAILURE"`. -/
def isTerminalState (s : String) : Bool :=
  s == "SUCCESS" || s == "FAILURE"

/-- Inter-poll delay, milliseconds (source: `setTimeout(r, 1200)`). -/
def pollDelayMs : ℕ := 1200

/-- Trace-level embedding of `pollJob`.  Responses of the backend to the
successive `getJob` requests are `resp 0, resp 1, ...`; the result is the
ordered list of snapshots passed to `onUpdate` — one per iteration, each
right after exactly one status request — and whether the loop exited.
`fuel` bounds how many iterations are unrolled (the source loop is an
unbounded `while (true)`). -/
def pollJob (resp : ℕ → JobSnapshot) : ℕ → List JobSnapshot × Bool
  | 0 => ([], false)
  | fuel + 1 =>
    let s := resp 0
    if isTerminalState s.state then ([s], true)
    else
      let r := pollJob (fun k => resp (k + 1)) fuel
      (s :: r.1, r.2)

/-- Embedding of the same `pollJob` loop as run in an environment that carries
a per-job cancellation signal: `cancelled k` tells whether tracking had been
cancelled by iteration `k`.  The source loop contains no read of any
cancellation flag, so the body is exactly that of `pollJob` and `cancelled`
is never consulted. -/
def pollJobCancelled (cancelled : ℕ → Bool) (resp : ℕ → JobSnapshot) :
    ℕ → List JobSnapshot × Bool
  | 0 => ([], false)
  | fuel + 1 =>
    let s := resp 0
    if isTerminalState s.state then ([s], true)
    else
      let r := pollJobCancelled (fun k => cancelled (k + 1))
        (fun k => resp (k + 1)) fuel
      (s :: r.1, r.2)

theorem pollJob_eq_of_first_terminal (resp : ℕ → JobSnapshot) (k fuel : ℕ)
    (hterm : isTerminalState (resp k).state = true)
    (hmin : ∀ i, i < k → isTerminalState (resp i).state = false)
    (hfuel : k < fuel) :
    pollJob resp fuel = ((List.range (k + 1)).map resp, true) := by
  induction k generalizing resp fuel with
  | zero =>
    cases fuel with
    | zero => omega
    | succ f => simp [pollJob, hterm, List.range_succ]
  | succ kk ih =>
    cases fuel with
    | zero => omega
    | succ f =>
      have h0 : isTerminalState (resp 0).state = false := hmin 0 (by omega)
      have ihx := ih (fun j => resp (j + 1)) f hterm
        (fun i hi => hmin (i + 1) (by omega)) (by omega)
      simp only [pollJob, h0, Bool.false_eq_true, if_false, ihx]
      rw [List.range_succ_eq_map (kk + 1), List.map_cons, List.map_map]
      rfl

/-! ## Merge request validation (FeaturePage.tsx `onGetStarted`)

Source of the merge branch:
`const { vid, aud } = pickVideoAudio(uploadedFiles);
if (!vid || !aud) { alert("Please upload one video file and one audio
file."); return; }
const ups = await uploadViaTus([vid, aud]); ...
const { task_id } = await createMerge(videoTus, audioTus, 0);` -/

/-- Browser `File` as far as the merge branch inspects it: its `name` and its
MIME `type`, both as character lists (Lean `String` functions are avoided so
every predicate evaluates by `decide`). -/
structure MediaFile where
  name : List Char
  type : List Char
deriving DecidableEq, Repr

/-- Video filename extensions of the source regex
`/\.(mp4|mov|mkv|avi|webm)$/i`. -/
def videoExts : List (List Char) :=
  [".mp4".toList, ".mov".toList, ".mkv".toList, ".avi".toList, ".webm".toList]

/-- Audio filename extensions of the source regex
`/\.(wav|mp3|m4a|aac|flac|ogg)$/i`. -/
def audioExts : List (List Char) :=
  [".wav".toList, ".mp3".toList, ".m4a".toList, ".aac".toList,
    ".flac".toList, ".ogg".toList]

/-- Case-insensitive matching of the source regexes: the name is lowered and
compared against each lowercase extension. -/
def lowerChars (s : List Char) : List Char := s.map Char.toLower

/-- Source: `f.type.startsWith("video/") ||
/\.(mp4|mov|mkv|avi|webm)$/i.test(f.name)`. -/
def isVideoFile (f : MediaFile) : Bool :=
  List.isPrefixOf "video/".toList f.type
    || videoExts.any (fun e => List.isSuffixOf e (lowerChars f.name))

/-- Source: `f.type.startsWith("audio/") ||
/\.(wav|mp3|m4a|aac|flac|ogg)$/i.test(f.name)`. -/
def isAudioFile (f : MediaFile) : Bool :=
  List.isPrefixOf "audio/".toList f.type
    || audioExts.any (fun e => List.isSuffixOf e (lowerChars f.name))

/-- Source `pickVideoAudio`: the first video-like and the first audio-like
uploaded file (`files.find(...)`). -/
def pickVideoAudio (files : List MediaFile) :
    Option MediaFile × Option MediaFile :=
  (files.find? isVideoFile, files.find? isAudioFile)

/-- Network calls the merge branch can issue. -/
inductive NetCall where
  | tusUpload (name : List Char)
  | createMergeCall
deriving DecidableEq, Repr

/-- Trace-level embedding of the merge branch of `onGetStarted`: the network
calls issued (TUS uploads then the `/merge` POST) and whether a job was
submitted.  The empty-file-list guard and the `!vid || !aud` rejection both
return before any network call. -/
def onGetStartedMerge (files : List MediaFile) : List NetCall × Bool :=
  if files.isEmpty then ([], false)
  else
    match pickVideoAudio files with
    | (some vid, some aud) =>
      ([NetCall.tusUpload vid.name, NetCall.tusUpload aud.name,
        NetCall.createMergeCall], true)
    | _ => ([], false)

/-- MergePanel.tsx: the merge button is rendered with
`disabled={!video || !audio}`. -/
def mergeButtonDisabled (video audio : Option (List Char)) : Bool :=
  video.isNone || audio.isNone

/-! ## Job wrappers of `app/lib/api.ts`

Each of `createSplit`, `createMerge`, `createTranscribe`, `bulkRename` and
`getJob` is `const r = await fetch(...); return r.json()` — the HTTP status
is never inspected.  By contrast `getTusEndpoint` checks `r.ok`. -/

/-- An HTTP response as these wrappers consume it: its status code and the
result of `r.json()` (`Except.error` when the body is not valid JSON, in
which case `r.json()` rejects). -/
structure HttpResponse (α : Type) where
  status : ℕ
  json : Except String α

/-- Source `response.ok`: status in the 2xx range. -/
def respOk (status : ℕ) : Bool :=
  decide (200 ≤ status) && decide (status < 300)

/-- Source `createSplit`: `fetch` then `return r.json()`; no status check. -/
def createSplit {α : Type} (r : HttpResponse α) : Except String α := r.json

/-- Source `createMerge`: `fetch` then `return r.json()`; no status check. -/
def createMerge {α : Type} (r : HttpResponse α) : Except String α := r.json

/-- Source `createTranscribe`: `fetch` then `return r.json()`; no status
check. -/
def createTranscribe {α : Type} (r : HttpResponse α) : Except String α := r.json

/-- Source `bulkRename`: `fetch` then `return r.json()`; no status check. -/
def bulkRename {α : Type} (r : HttpResponse α) : Except String α := r.json

/-- Source `getJob`: `fetch` then `return r.json()`; no status check. -/
def getJob {α : Type} (r : HttpResponse α) : Except String α := r.json

/-- Source `getTusEndpoint`, for contrast: `if (!r.ok) throw new Error("tus
endpoint failed")` before parsing. -/
def getTusEndpoint {α : Type} (r : HttpResponse α) : Except String α :=
  if respOk r.status then r.json else Except.error "tus endpoint failed"

/-! ## Claim C2: bounded concurrency, but batch-then-wait -/

/-- Part durations of a three-part upload with `maxConcurrent = 2`:
part 0 takes 1 unit, part 1 takes 3 units, part 2 takes 1 unit. -/
def durEx : ℕ → ℕ := fun i => [1, 3, 1].getD i 0

/-- Counterexample to claim C2.  With three parts of durations 1, 3, 1 and
`maxConcurrent = 2`: part 0 completes at instant 1 while part 2 is still
pending and only one PUT is outstanding (a free slot exists), yet part 2
starts only at instant 3, when the whole first batch has finished — not at
instant 1 as a pipelined semaphore would start it.  The loop
`for (...; i += maxConcurrent) { await Promise.all(batchPromises) }` waits
for the entire batch. -/
theorem batch_wait_not_pipelined_counterexample :
    finishTime durEx 3 2 0 = 1
    ∧ (outstanding durEx 3 2 1).card = 1
    ∧ startTime durEx 3 2 2 = 3
    ∧ ¬ startTime durEx 3 2 2 = finishTime durEx 3 2 0 := by
  decide

/-- Claim C2 (amended).  At most `maxConcurrent` part uploads are outstanding
at any instant; however the pool is batch-then-wait, not a pipelined
semaphore: parts are launched in consecutive batches of `maxConcurrent` and
each batch starts only when every part of the previous batch has finished, so
a completing part does not hand its slot to the next pending part. -/
theorem at_most_maxConcurrent_outstanding (dur : ℕ → ℕ) (n m t : ℕ)
    (hm : 0 < m) : (outstanding dur n m t).card ≤ m := by
  by_cases hne : (outstanding dur n m t).Nonempty
  · obtain ⟨i₀, hi₀⟩ := hne
    have hsub : outstanding dur n m t
        ⊆ Finset.Ico (i₀ / m * m) (i₀ / m * m + m) := by
      intro j hj
      have hbatch := outstanding_same_batch dur n m t j i₀ hj hi₀
      have hjm : j / m * m ≤ j := Nat.div_mul_le_self j m
      have h1 := Nat.div_add_mod j m
      have h2 := Nat.mod_lt j hm
      have h3 : m * (j / m) = j / m * m := Nat.mul_comm _ _
      rw [Finset.mem_Ico, ← hbatch]
      omega
    calc (outstanding dur n m t).card
        ≤ (Finset.Ico (i₀ / m * m) (i₀ / m * m + m)).card :=
          Finset.card_le_card hsub
      _ = m := by rw [Nat.card_Ico]; omega
  · rw [Finset.not_nonempty_iff_eq_empty] at hne
    rw [hne]
    simp

/-- Witness for the amended C2 at a concrete instant of the concrete
schedule. -/
theorem at_most_maxConcurrent_outstanding_witness :
    (outstanding durEx 3 2 0).card ≤ 2 :=
  at_most_maxConcurrent_outstanding durEx 3 2 0 (by decide)

/-! ## Claim C3: completion failure is fatal, but no abort is issued -/

/-- Environment of a run whose single part succeeds and whose completion call
fails. -/
def envCompleteFail : S3Env :=
  ⟨1, 3, fun _ => PartOutcome.ok "etag-1", false⟩

/-- Counterexample to claim C3.  When `completeMultipartUpload` fails after
the single part succeeded, the upload does fail, but the network trace
contains zero abort calls — `uploadWithS3Multipart` has no code path calling
`abortMultipartUpload`; its `catch` block only logs and rethrows. -/
theorem no_abort_on_complete_failure_counterexample :
    (uploadWithS3Multipart envCompleteFail).2 = Except.error "complete failed"
    ∧ (uploadWithS3Multipart envCompleteFail).1.count ApiCall.abort = 0
    ∧ ¬ (uploadWithS3Multipart envCompleteFail).1.count ApiCall.abort = 1 := by
  refine ⟨rfl, rfl, by decide⟩

/-- Claim C3 (amended).  If the completion call fails after all parts
succeeded, the failure is fatal — `uploadWithS3Multipart` propagates the
error to its caller — but no `abortMultipartUpload` call is issued: the
trace of every such run contains zero abort calls. -/
theorem complete_failure_fatal_but_no_abort (env : S3Env)
    (hparts : (runBatches env.outcome
      (partBatches env.numParts env.maxConcurrent)).2 = true)
    (hfail : env.completeOk = false) :
    (uploadWithS3Multipart env).2 = Except.error "complete failed"
    ∧ (uploadWithS3Multipart env).1.count ApiCall.abort = 0 := by
  constructor
  · simp [uploadWithS3Multipart, hparts, hfail]
  · simp [uploadWithS3Multipart, hparts, hfail, List.count_append,
      List.count_cons, runBatches_count_abort]

/-- Witness for the amended C3. -/
theorem complete_failure_fatal_but_no_abort_witness :
    (uploadWithS3Multipart envCompleteFail).2 = Except.error "complete failed"
    ∧ (uploadWithS3Multipart envCompleteFail).1.count ApiCall.abort = 0 :=
  complete_failure_fatal_but_no_abort envCompleteFail rfl rfl

/-! ## Claim C6: no retry on the S3 multipart path -/

/-- Environment of a run whose single part always answers HTTP 503 (a
transient error per the spec taxonomy). -/
def envTransient : S3Env :=
  ⟨1, 3, fun _ => PartOutcome.httpError 503, true⟩

/-- Counterexample to claim C6.  A part answering HTTP 503 — a transient
error that the claim says is retried on the schedule 0s, 3s, 5s, 10s, 20s —
is attempted exactly once: `uploadPart` contains no retry loop, and its
single failed `fetch` fails the whole upload. -/
theorem transient_error_not_retried_counterexample :
    (uploadWithS3Multipart envTransient).1.count (ApiCall.putPart 1) = 1
    ∧ (uploadWithS3Multipart envTransient).2 = Except.error "part upload failed"
    ∧ ¬ 2 ≤ (uploadWithS3Multipart envTransient).1.count (ApiCall.putPart 1) := by
  refine ⟨rfl, rfl, by decide⟩

/-- Claim C6 (amended).  The S3 multipart path performs no retries at all:
every part is PUT at most once per upload, whatever its outcome (5xx, 429,
network failure or missing ETag included), and a failed part fails the part
immediately.  Only the TUS path configures the backoff schedule
0s, 3s, 5s, 10s, 20s, passing it to the `tus-js-client` library. -/
theorem s3_parts_never_retried (env : S3Env) (p : ℕ)
    (hm : 0 < env.maxConcurrent) :
    (uploadWithS3Multipart env).1.count (ApiCall.putPart p) ≤ 1
    ∧ tusRetryDelays = [0, 3000, 5000, 10000, 20000] := by
  refine ⟨?_, rfl⟩
  have h1 := runBatches_count_le env.outcome
    (partBatches env.numParts env.maxConcurrent) (ApiCall.putPart p)
  have h2 := count_putPart_partBatches_le_one env.numParts env.maxConcurrent p hm
  by_cases hb : (runBatches env.outcome
      (partBatches env.numParts env.maxConcurrent)).2
  · by_cases hc : env.completeOk
    · simp only [uploadWithS3Multipart, hb, hc, if_true, List.count_cons,
        List.count_append]
      simp
      omega
    · simp only [uploadWithS3Multipart, hb, hc, if_true, Bool.false_eq_true,
        if_false, List.count_cons, List.count_append]
      simp
      omega
  · simp only [uploadWithS3Multipart, hb, Bool.false_eq_true, if_false,
      List.count_cons]
    simp
    omega

/-- Witness for the amended C6. -/
theorem s3_parts_never_retried_witness :
    (uploadWithS3Multipart envTransient).1.count (ApiCall.putPart 1) ≤ 1
    ∧ tusRetryDelays = [0, 3000, 5000, 10000, 20000] :=
  s3_parts_never_retried envTransient 1 (by decide)

/-! ## Claim C7: abort is not idempotent -/

/-- Counterexample to claim C7.  Requesting an abort twice issues two network
abort calls, not one: `abortMultipartUpload` performs its POST
unconditionally and the client keeps no state to deduplicate requests. -/
theorem abort_twice_two_calls_counterexample :
    (requestAbort 2).count ApiCall.abort = 2
    ∧ ¬ (requestAbort 2).count ApiCall.abort = 1 := by
  decide

/-- Claim C7 (amended).  Every abort request performs its own network abort
call: `times` requests issue exactly `times` calls; no idempotence guard
exists at the network level. -/
theorem requestAbort_count (times : ℕ) :
    (requestAbort times).count ApiCall.abort = times := by
  induction times with
  | zero => rfl
  | succ t ih =>
    simp only [requestAbort, List.replicate_succ, List.flatten_cons,
      List.count_append]
    unfold requestAbort at ih
    rw [ih]
    have hone : List.count ApiCall.abort abortMultipartUpload = 1 := rfl
    omega

/-! ## Claim C8: capability discovery is not cached -/

/-- Counterexample to claim C8.  Two calls to the discovery operation fetch
twice: `getUploadInfo` is a bare `this.request` of `/uploads/tus` with no
memoization on the client (and `getTusEndpoint` even requests
`cache: "no-store"`). -/
theorem discovery_not_cached_counterexample :
    (callGetUploadInfo 2).count ApiCall.discover = 2
    ∧ ¬ (callGetUploadInfo 2).count ApiCall.discover = 1 := by
  decide

/-- Claim C8 (amended).  Every discovery call performs a network fetch —
`times` calls fetch `times` times; no cache exists in the client, and the
`getTusEndpoint` fetch explicitly opts out of HTTP caching with
`cache: "no-store"`.  (FeaturePage keeps its own copy in component state;
`TusUploader.onPick` re-fetches on every file pick.) -/
theorem discovery_fetches_every_call (times : ℕ) :
    (callGetUploadInfo times).count ApiCall.discover = times
    ∧ getTusEndpointCacheMode = "no-store" := by
  refine ⟨?_, rfl⟩
  induction times with
  | zero => rfl
  | succ t ih =>
    simp only [callGetUploadInfo, List.replicate_succ, List.flatten_cons,
      List.count_append]
    unfold callGetUploadInfo at ih
    rw [ih]
    have hone : List.count ApiCall.discover getUploadInfo = 1 := rfl
    omega

/-! ## Claim C4: the polling loop -/

/-- Claim C4.  For every sequence of backend responses, `pollJob` emits the
snapshot of each iteration (one `getJob` request then one `onUpdate` per
iteration, by construction of the trace), terminates at the first response
whose state is terminal (`SUCCESS` or `FAILURE`) having emitted exactly the
responses up to and including it, and the fixed inter-poll delay is 1200 ms,
within the stated 1.0–1.2 s. -/
theorem pollJob_stops_at_first_terminal (resp : ℕ → JobSnapshot) (k fuel : ℕ)
    (hterm : isTerminalState (resp k).state = true)
    (hmin : ∀ i, i < k → isTerminalState (resp i).state = false)
    (hfuel : k < fuel) :
    pollJob resp fuel = ((List.range (k + 1)).map resp, true)
    ∧ 1000 ≤ pollDelayMs ∧ pollDelayMs ≤ 1200 :=
  ⟨pollJob_eq_of_first_terminal resp k fuel hterm hmin hfuel,
    by norm_num [pollDelayMs], by norm_num [pollDelayMs]⟩

/-- Backend responses that are non-terminal twice and then report success. -/
def respTerminalAt2 : ℕ → JobSnapshot :=
  fun k => if k < 2 then ⟨"STARTED", none, none⟩
    else ⟨"SUCCESS", some "url", none⟩

/-- Witness for C4. -/
theorem pollJob_stops_at_first_terminal_witness :
    pollJob respTerminalAt2 10 = ((List.range 3).map respTerminalAt2, true)
    ∧ 1000 ≤ pollDelayMs ∧ pollDelayMs ≤ 1200 :=
  pollJob_stops_at_first_terminal respTerminalAt2 2 10 (by decide)
    (by decide) (by decide)

/-! ## Claim C5: there is no cancellation flag -/

/-- Backend responses: queued, then started, then success. -/
def respQueuedStartedSuccess : ℕ → JobSnapshot :=
  fun k => if k = 0 then ⟨"QUEUED", none, none⟩
    else if k = 1 then ⟨"STARTED", none, none⟩
    else ⟨"SUCCESS", none, none⟩

/-- Counterexample to claim C5.  With tracking cancelled from the very first
iteration (`cancelled` constantly true), the loop still emits all three
snapshots — the claim that no snapshot is ever emitted after cancellation
demands an empty emission list here.  The source loop contains no
cancellation flag and no check before its state update. -/
theorem cancellation_never_checked_counterexample :
    (pollJobCancelled (fun _ => true) respQueuedStartedSuccess 10).1.length = 3
    ∧ ¬ (pollJobCancelled (fun _ => true) respQueuedStartedSuccess 10).1 = [] := by
  refine ⟨rfl, by decide⟩

/-- Claim C5 (amended).  `pollJob` has no per-job cancellation flag: its
emissions and job-state updates are identical under every cancellation
signal — cancelling never prevents a subsequent snapshot emission or state
write; the loop runs to its first terminal response regardless. -/
theorem pollJob_ignores_cancellation (cancelled cancelledB : ℕ → Bool)
    (resp : ℕ → JobSnapshot) (fuel : ℕ) :
    pollJobCancelled cancelled resp fuel = pollJobCancelled cancelledB resp fuel
    ∧ pollJobCancelled cancelled resp fuel = pollJob resp fuel := by
  suffices h : ∀ (c : ℕ → Bool) (r : ℕ → JobSnapshot) (f : ℕ),
      pollJobCancelled c r f = pollJob r f by
    exact ⟨(h cancelled resp fuel).trans (h cancelledB resp fuel).symm,
      h cancelled resp fuel⟩
  intro c r f
  induction f generalizing c r with
  | zero => rfl
  | succ ff ih =>
    simp only [pollJobCancelled, pollJob]
    by_cases ht : isTerminalState (r 0).state
    · simp [ht]
    · simp [ht, ih]

/-! ## Claim C9: merge without both references is rejected pre-network -/

/-- Claim C9.  Whenever `pickVideoAudio` finds no video-like or no audio-like
file, the merge branch of `onGetStarted` returns with an empty network trace
and no job submitted — the rejection happens before any upload or submission
call; and the MergePanel merge button is disabled whenever either reference
is missing. -/
theorem merge_missing_reference_rejected (files : List MediaFile)
    (h : (pickVideoAudio files).1 = none ∨ (pickVideoAudio files).2 = none) :
    onGetStartedMerge files = ([], false)
    ∧ ∀ v a : Option (List Char), v = none ∨ a = none →
        mergeButtonDisabled v a = true := by
  constructor
  · rcases hv : files.find? isVideoFile with _ | v <;>
      rcases ha : files.find? isAudioFile with _ | a
    · simp [onGetStartedMerge, pickVideoAudio, hv, ha]
    · simp [onGetStartedMerge, pickVideoAudio, hv, ha]
    · simp [onGetStartedMerge, pickVideoAudio, hv, ha]
    · exfalso
      simp [pickVideoAudio, hv, ha] at h
  · intro v a hva
    rcases hva with rfl | rfl
    · simp [mergeButtonDisabled]
    · simp [mergeButtonDisabled]

/-- An upload containing only an audio file. -/
def audioOnlyFiles : List MediaFile :=
  [⟨"track.wav".toList, "audio/wav".toList⟩]

/-- Witness for C9: a merge attempt with only an audio file issues no network
call. -/
theorem merge_missing_reference_rejected_witness :
    onGetStartedMerge audioOnlyFiles = ([], false) :=
  (merge_missing_reference_rejected audioOnlyFiles (Or.inl (by decide))).1

/-! ## Claim C10: job wrappers never inspect the HTTP status -/

/-- Claim C10.  The wrappers `createSplit`, `createMerge`, `createTranscribe`,
`bulkRename` and `getJob` return the parsed JSON body unchanged for every
response, non-2xx included — no typed error is raised from the status, and a
failure surfaces only when the body is not valid JSON (the `Except.error`
of `r.json()` itself).  By contrast `getTusEndpoint` does check `r.ok` and
throws on a non-2xx status. -/
theorem job_wrappers_ignore_http_status {α : Type} (status : ℕ)
    (j : Except String α) (hbad : respOk status = false) :
    createSplit ⟨status, j⟩ = j
    ∧ createMerge ⟨status, j⟩ = j
    ∧ createTranscribe ⟨status, j⟩ = j
    ∧ bulkRename ⟨status, j⟩ = j
    ∧ getJob ⟨status, j⟩ = j
    ∧ getTusEndpoint (⟨status, j⟩ : HttpResponse α)
        = Except.error "tus endpoint failed" := by
  refine ⟨rfl, rfl, rfl, rfl, rfl, ?_⟩
  simp [getTusEndpoint, hbad]

/-- Witness for C10 at an HTTP 500 response whose body parses. -/
theorem job_wrappers_ignore_http_status_witness :
    createSplit ⟨500, Except.ok "payload"⟩ = Except.ok "payload"
    ∧ createMerge ⟨500, Except.ok "payload"⟩ = Except.ok "payload"
    ∧ createTranscribe ⟨500, Except.ok "payload"⟩ = Except.ok "payload"
    ∧ bulkRename ⟨500, Except.ok "payload"⟩ = Except.ok "payload"
    ∧ getJob ⟨500, Except.ok "payload"⟩ = Except.ok "payload"
    ∧ getTusEndpoint (⟨500, Except.ok "payload"⟩ : HttpResponse String)
        = Except.error "tus endpoint failed" :=
  job_wrappers_ignore_http_status 500 (Except.ok "payload") (by decide)

end SudoAI
